import Mathlib

/-!
Shallow embedding of `src/query/src/storages/fuse/pruning/bloom_pruner.rs`
(databend, fuse storage engine bloom-filter block pruning).

The file embeds, in order:
* the predicate tree (`Expression` of common-planners, restricted to the
  variants the pruning code inspects; every other variant behaves like the
  default arm of `PointQueryVisitor::pre_visit`, i.e. like
  `BinaryExpression` with an unrecognised operator as far as this code is
  concerned);
* the expression visitor machinery (`Recursion`, `ExpressionVisitor::accept`)
  — the traversal itself lives in common-planners, outside the excerpt, so it
  is modelled from the spec;
* `PointQueryVisitor::pre_visit` and `columns_names_of_eq_expressions`;
* the pruners (`NonPruner`, `BloomFilterIndexPruner`), the helper
  `filter_block_by_bloom_index` and the factory `new_bloom_filter_pruner`.

External collaborators (the data accessor `Operator`/`load_bloom_filter_by_columns`,
`BloomFilterIndexer::from_bloom_block`, `BloomFilterIndexer::maybe_true`,
`TableMetaLocationGenerator::block_bloom_index_location`) are modelled as an
explicit record of (possibly failing) functions, quantified over in the
theorems.  Rust's `Result<T>` becomes `Except ErrorCode T`.  The
`tracing::warn!` side effect of `should_keep` is made observable as the
second component of its return value (the warning message emitted, if any).
-/

/-- Error payload of `common_exception::Result`; only its presence matters. -/
abbrev ErrorCode := String

/-- `DataSchemaRef`: an ordered list of (field name, data type). -/
abbrev DataSchemaRef := List (String × String)

/-- The predicate tree (`common_planners::Expression`), restricted to the
variants `bloom_pruner.rs` pattern-matches on: `BinaryExpression`,
`Column` and `Literal`.  The literal payload is opaque to the pruning code,
which never inspects it; a `Nat` stands in for the data value. -/
inductive Expression where
  | Column (name : String)
  | Literal (value : Nat)
  | BinaryExpression (left : Expression) (op : String) (right : Expression)
deriving DecidableEq, Repr

/-- `common_planners::Recursion`: the pre-visit verdict, `Continue` descends
into the node's children, `Stop` treats the subtree as fully handled. -/
inductive Recursion (V : Type) where
  | Continue (v : V)
  | Stop (v : V)
deriving DecidableEq, Repr

/-- `PointQueryVisitor`: accumulates the names of columns used by point
queries.  Rust's `HashSet<String>` is modelled as `Finset String`. -/
structure PointQueryVisitor where
  columns : Finset String
deriving DecidableEq

/-- `PointQueryVisitor::pre_visit`: on a binary "=" whose operands are a
column and a literal (either order), record the column and stop; on every
other node, continue into the children.  Always returns `Ok`. -/
def pre_visit (v : PointQueryVisitor) (expr : Expression) :
    Except ErrorCode (Recursion PointQueryVisitor) :=
  match expr with
  | .BinaryExpression left op right =>
    if op = "=" then
      match left, right with
      | .Column column, .Literal _ =>
          Except.ok (Recursion.Stop ⟨insert column v.columns⟩)
      | .Literal _, .Column column =>
          Except.ok (Recursion.Stop ⟨insert column v.columns⟩)
      | _, _ => Except.ok (Recursion.Continue v)
    else
      Except.ok (Recursion.Continue v)
  | _ => Except.ok (Recursion.Continue v)

/-- Modelled from the spec: `Expression::accept` of common-planners (the
traversal driver is not part of the excerpt).  Pre-order traversal: call
`pre_visit` on the node; on `Stop` do not descend into the node's children
(the subtree is fully handled); on `Continue` visit the children left to
right, threading the visitor; errors propagate. -/
def accept (v : PointQueryVisitor) : Expression → Except ErrorCode PointQueryVisitor
  | .BinaryExpression left op right =>
    match pre_visit v (.BinaryExpression left op right) with
    | .error e => .error e
    | .ok (.Stop v2) => .ok v2
    | .ok (.Continue v2) =>
      match accept v2 left with
      | .error e => .error e
      | .ok v3 => accept v3 right
  | .Column name =>
    match pre_visit v (.Column name) with
    | .error e => .error e
    | .ok (.Stop v2) => .ok v2
    | .ok (.Continue v2) => .ok v2
  | .Literal value =>
    match pre_visit v (.Literal value) with
    | .error e => .error e
    | .ok (.Stop v2) => .ok v2
    | .ok (.Continue v2) => .ok v2

/-- `columns_names_of_eq_expressions`: run the visitor from an empty set and
collect the accumulated set into a vector.  Rust iterates the `HashSet` in an
arbitrary order; the embedding realises the collection in sorted order (the
choice is immaterial, the result is used as a set). -/
def columns_names_of_eq_expressions (filter_expr : Expression) :
    Except ErrorCode (List String) :=
  (accept ⟨∅⟩ filter_expr).map (fun r => r.columns.sort (· ≤ ·))

/-- The spec's description of extraction, written directly from its words
(section 4.1), used as the reference for the refinement proof: an "="
node over a column and a literal yields that column and its subtree is
terminal; any other node contributes the union of its children; leaves
contribute nothing. -/
def extract_columns_spec : Expression → Finset String
  | .Column _ => ∅
  | .Literal _ => ∅
  | .BinaryExpression left op right =>
    if op = "=" then
      match left, right with
      | .Column c, .Literal _ => {c}
      | .Literal _, .Column c => {c}
      | _, _ => extract_columns_spec left ∪ extract_columns_spec right
    else
      extract_columns_spec left ∪ extract_columns_spec right

/-- Shape test used only in theorem statements: `some c` iff the node is a
binary "=" whose operands are a column reference `c` and a literal, in
either order. -/
def eq_point_column : Expression → Option String
  | .BinaryExpression left op right =>
    if op = "=" then
      match left, right with
      | .Column c, .Literal _ => some c
      | .Literal _, .Column c => some c
      | _, _ => none
    else none
  | _ => none

/-- The external collaborators `BloomFilterIndexPruner` depends on, bundled
with the data accessor handle (`Operator`) they close over: the partial
index load, the index decoder and its predicate evaluator, and the pure
block-path → bloom-index-location mapping.  `FilterBlock` is the type of a
loaded partial index block, `Indexer` the type of a decoded
`BloomFilterIndexer`; both are opaque to the pruning code. -/
structure Env (FilterBlock Indexer : Type) where
  /-- `TableMetaLocationGenerator::block_bloom_index_location`, pure and
  deterministic per the spec. -/
  block_bloom_index_location : String → String
  /-- `load_bloom_filter_by_columns ctx dal column_names location`. -/
  load_bloom_filter_by_columns : List String → String → Except ErrorCode FilterBlock
  /-- `BloomFilterIndexer::from_bloom_block schema filter_block ctx`. -/
  from_bloom_block : DataSchemaRef → FilterBlock → Except ErrorCode Indexer
  /-- `BloomFilterIndexer::maybe_true filter_expr`. -/
  maybe_true : Indexer → Expression → Except ErrorCode Bool

/-- `util::filter_block_by_bloom_index`: resolve the bloom index location for
the block, load only the needed index columns, decode them into a
`BloomFilterIndexer`, and evaluate `maybe_true` on the filter expression.
Any stage's error propagates. -/
def filter_block_by_bloom_index {FB IX : Type} (env : Env FB IX)
    (schema : DataSchemaRef) (filter_expr : Expression)
    (bloom_index_col_names : List String) (block_path : String) :
    Except ErrorCode Bool := do
  let bloom_idx_location := env.block_bloom_index_location block_path
  let filter_block ←
    env.load_bloom_filter_by_columns bloom_index_col_names bloom_idx_location
  let indexer ← env.from_bloom_block schema filter_block
  env.maybe_true indexer filter_expr

/-- `NonPruner`: dummy pruner that prunes nothing; carries no state. -/
structure NonPruner where
deriving DecidableEq, Repr

/-- `NonPruner::should_keep`: unconditionally `true`; no I/O, no state, no
log.  The second component is the warning emitted (none here). -/
def NonPruner.should_keep (_p : NonPruner) (_loc : String) : Bool × Option String :=
  (true, none)

/-- `BloomFilterIndexPruner`: the index-backed pruner.  `dal` bundles the
data accessor handle with the external index collaborators (`Env`); the
opaque `ctx : Arc<dyn TableContext>` handle, never inspected by this code,
is folded into it as well. -/
structure BloomFilterIndexPruner (FilterBlock Indexer : Type) where
  /-- columns that should be loaded from bloom filter block -/
  index_columns : List String
  /-- the expression that would be evaluate -/
  filter_expression : Expression
  /-- the data accessor (and the index collaborators it reaches) -/
  dal : Env FilterBlock Indexer
  /-- the schema of data being indexed -/
  data_schema : DataSchemaRef

/-- `BloomFilterIndexPruner::should_keep`: run
`filter_block_by_bloom_index`; on `Ok v` return `v`; on any error, swallow
it, emit a warning (second component) and return `true`. -/
def BloomFilterIndexPruner.should_keep {FB IX : Type}
    (p : BloomFilterIndexPruner FB IX) (loc : String) : Bool × Option String :=
  match filter_block_by_bloom_index p.dal p.data_schema p.filter_expression
      p.index_columns loc with
  | .ok v => (v, none)
  | .error e =>
      (true, some ("failed to apply bloom filter, returning ture. " ++ e))

/-- The polymorphic pruner (`Arc<dyn BloomFilterPruner>`): exactly the two
implementations of the trait. -/
inductive BloomFilterPruner (FilterBlock Indexer : Type) where
  | non (p : NonPruner)
  | bloomFilterIndex (p : BloomFilterIndexPruner FilterBlock Indexer)

/-- Trait dispatch of `should_keep` over the two implementations. -/
def BloomFilterPruner.should_keep {FB IX : Type} :
    BloomFilterPruner FB IX → String → Bool × Option String
  | .non p, loc => p.should_keep loc
  | .bloomFilterIndex p, loc => p.should_keep loc

/-- Modelled from the spec: `BloomFilterIndexer::to_bloom_column_name` (not
part of the excerpt), the pure, deterministic, injective translation of a
logical column name to the bloom-index-block naming convention — a fixed
prefix/encoding applied per column. -/
def to_bloom_column_name (column_name : String) : String :=
  "Bloom(" ++ column_name ++ ")"

/-- `new_bloom_filter_pruner`: if a filter expression is supplied and
extraction finds point-query columns, build a `BloomFilterIndexPruner` over
the translated column names, a copy of the expression and the schema;
otherwise return `NonPruner`.  Extraction errors propagate. -/
def new_bloom_filter_pruner {FB IX : Type} (filter_expr : Option Expression)
    (schema : DataSchemaRef) (dal : Env FB IX) :
    Except ErrorCode (BloomFilterPruner FB IX) :=
  match filter_expr with
  | some expr =>
    match columns_names_of_eq_expressions expr with
    | .error e => .error e
    | .ok point_query_cols =>
      if point_query_cols.isEmpty then
        .ok (.non ⟨⟩)
      else
        .ok (.bloomFilterIndex
          ⟨point_query_cols.map to_bloom_column_name, expr, dal, schema⟩)
  | none => .ok (.non ⟨⟩)

/-- Helper: on a binary node where `pre_visit` continues, `accept` is the
left-to-right traversal of the children; with both children already known to
satisfy the refinement, the node does too. -/
theorem accept_continue_eq (v : PointQueryVisitor) (l : Expression) (op : String)
    (r : Expression)
    (h : pre_visit v (.BinaryExpression l op r) = .ok (.Continue v))
    (hl : ∀ w : PointQueryVisitor, accept w l = .ok ⟨w.columns ∪ extract_columns_spec l⟩)
    (hr : ∀ w : PointQueryVisitor, accept w r = .ok ⟨w.columns ∪ extract_columns_spec r⟩) :
    accept v (.BinaryExpression l op r) =
      .ok ⟨v.columns ∪ (extract_columns_spec l ∪ extract_columns_spec r)⟩ := by
  simp only [accept, h, hl, hr, Finset.union_assoc]

/-- Master refinement lemma: the visitor traversal from any starting set
computes exactly the union of that set with the spec-level extraction, and
never fails. -/
theorem accept_spec (e : Expression) : ∀ v : PointQueryVisitor,
    accept v e = .ok ⟨v.columns ∪ extract_columns_spec e⟩ := by
  induction e with
  | Column name =>
      intro v
      simp [accept, pre_visit, extract_columns_spec]
  | Literal value =>
      intro v
      simp [accept, pre_visit, extract_columns_spec]
  | BinaryExpression l op r ihl ihr =>
      intro v
      by_cases hop : op = "="
      · subst hop
        rcases l with cn | cv | ⟨l1, op1, r1⟩
        · rcases r with dn | dv | ⟨l2, op2, r2⟩
          · rw [accept_continue_eq v _ _ _ (by simp [pre_visit]) ihl ihr]
            simp [extract_columns_spec]
          · simp only [accept, pre_visit, extract_columns_spec, if_pos,
              Except.ok.injEq, PointQueryVisitor.mk.injEq]
            rw [Finset.insert_eq]
            exact Finset.union_comm _ _
          · rw [accept_continue_eq v _ _ _ (by simp [pre_visit]) ihl ihr]
            simp [extract_columns_spec]
        · rcases r with dn | dv | ⟨l2, op2, r2⟩
          · simp only [accept, pre_visit, extract_columns_spec, if_pos,
              Except.ok.injEq, PointQueryVisitor.mk.injEq]
            rw [Finset.insert_eq]
            exact Finset.union_comm _ _
          · rw [accept_continue_eq v _ _ _ (by simp [pre_visit]) ihl ihr]
            simp [extract_columns_spec]
          · rw [accept_continue_eq v _ _ _ (by simp [pre_visit]) ihl ihr]
            simp [extract_columns_spec]
        · rcases r with dn | dv | ⟨l2, op2, r2⟩
          · rw [accept_continue_eq v _ _ _ (by simp [pre_visit]) ihl ihr]
            simp [extract_columns_spec]
          · rw [accept_continue_eq v _ _ _ (by simp [pre_visit]) ihl ihr]
            simp [extract_columns_spec]
          · rw [accept_continue_eq v _ _ _ (by simp [pre_visit]) ihl ihr]
            simp [extract_columns_spec]
      · rw [accept_continue_eq v _ _ _ (by simp [pre_visit, hop]) ihl ihr]
        simp [extract_columns_spec, hop]

/-- Helper: the extraction entry point never fails and returns the spec-level
column set, realised as a sorted list. -/
theorem columns_names_eq (e : Expression) :
    columns_names_of_eq_expressions e =
      .ok (Finset.sort (· ≤ ·) (extract_columns_spec e)) := by
  unfold columns_names_of_eq_expressions
  rw [accept_spec]
  show Except.ok (Finset.sort (· ≤ ·) ((∅ : Finset String) ∪ extract_columns_spec e)) = _
  rw [Finset.empty_union]

/-- Unfolding of the factory on a supplied expression, with extraction
already resolved through the refinement lemma. -/
theorem new_pruner_some_eq {FB IX : Type} (dal : Env FB IX) (schema : DataSchemaRef)
    (e : Expression) :
    new_bloom_filter_pruner (some e) schema dal =
      (if (Finset.sort (· ≤ ·) (extract_columns_spec e)).isEmpty then
        .ok (.non ⟨⟩)
      else
        .ok (.bloomFilterIndex
          ⟨(Finset.sort (· ≤ ·) (extract_columns_spec e)).map to_bloom_column_name,
            e, dal, schema⟩)) := by
  simp only [new_bloom_filter_pruner]
  rw [columns_names_eq]

/-- `pre_visit` returns `Ok` on every visitor state and every node. -/
theorem pre_visit_ok (v : PointQueryVisitor) (e : Expression) :
    ∃ r, pre_visit v e = .ok r := by
  cases e with
  | Column n => exact ⟨_, rfl⟩
  | Literal x => exact ⟨_, rfl⟩
  | BinaryExpression l op r =>
    by_cases hop : op = "="
    · subst hop
      rcases l with n1 | v1 | ⟨l1, o1, r1⟩ <;> rcases r with n2 | v2 | ⟨l2, o2, r2⟩ <;>
        exact ⟨_, rfl⟩
    · refine ⟨.Continue v, ?_⟩
      simp only [pre_visit]
      rw [if_neg hop]

/-- Duplicating a whole operand tree never changes the extracted column set:
a binary node over two copies of `e` extracts exactly what `e` extracts. -/
theorem extract_columns_spec_self_pair (e : Expression) (op : String) :
    extract_columns_spec (.BinaryExpression e op e) = extract_columns_spec e := by
  by_cases hop : op = "="
  · subst hop
    cases e <;> simp [extract_columns_spec]
  · simp [extract_columns_spec, hop]

/-- List/Finset fact used for the image characterisation of the translated
column list. -/
theorem list_toFinset_map (l : List String) (f : String → String) :
    (l.map f).toFinset = l.toFinset.image f := by
  induction l with
  | nil => simp
  | cons a t ih => simp [ih]

/-- Concrete predicate `a = 1`. -/
def expr_a_eq_1 : Expression := .BinaryExpression (.Column "a") "=" (.Literal 1)

/-- Concrete predicate `1 = a`. -/
def expr_1_eq_a : Expression := .BinaryExpression (.Literal 1) "=" (.Column "a")

/-- Concrete predicate `b > 2`. -/
def expr_b_gt_2 : Expression := .BinaryExpression (.Column "b") ">" (.Literal 2)

/-- Concrete predicate `a = 1 AND b > 2`. -/
def expr_conj : Expression := .BinaryExpression expr_a_eq_1 "and" expr_b_gt_2

/-- Concrete predicate `a > 1`. -/
def expr_a_gt_1 : Expression := .BinaryExpression (.Column "a") ">" (.Literal 1)

/-- Concrete collaborator record on which every stage succeeds and predicate
evaluation answers `b`. -/
def env_ok (b : Bool) : Env Unit Unit where
  block_bloom_index_location := fun loc => loc ++ "_idx"
  load_bloom_filter_by_columns := fun _ _ => .ok ()
  from_bloom_block := fun _ _ => .ok ()
  maybe_true := fun _ _ => .ok b

/-- Concrete collaborator record whose partial index load fails (simulated
I/O error). -/
def env_fail : Env Unit Unit where
  block_bloom_index_location := fun loc => loc ++ "_idx"
  load_bloom_filter_by_columns := fun _ _ => .error "io error"
  from_bloom_block := fun _ _ => .ok ()
  maybe_true := fun _ _ => .ok true

/-- C1: every error arising anywhere in `should_keep`'s pipeline (index
location resolution, partial column load, index decoding, predicate
evaluation) is caught at the `should_keep` boundary and converted to the
boolean `true` (keep), with the warning message emitted; `should_keep` is a
total function into booleans and never propagates the error. -/
theorem should_keep_fail_open {FB IX : Type} (p : BloomFilterIndexPruner FB IX)
    (loc : String) (e : ErrorCode)
    (h : filter_block_by_bloom_index p.dal p.data_schema p.filter_expression
        p.index_columns loc = .error e) :
    (p.should_keep loc).1 = true ∧
      (p.should_keep loc).2 =
        some ("failed to apply bloom filter, returning ture. " ++ e) := by
  unfold BloomFilterIndexPruner.should_keep
  rw [h]
  exact ⟨rfl, rfl⟩

/-- Witness for C1: a pruner over a failing loader keeps the block and
reports the warning. -/
theorem should_keep_fail_open_witness :
    ((BloomFilterIndexPruner.should_keep
        ⟨["Bloom(a)"], expr_a_eq_1, env_fail, [("a", "Int32")]⟩ "blk1").1 = true) ∧
      ((BloomFilterIndexPruner.should_keep
        ⟨["Bloom(a)"], expr_a_eq_1, env_fail, [("a", "Int32")]⟩ "blk1").2 =
        some ("failed to apply bloom filter, returning ture. " ++ "io error")) :=
  should_keep_fail_open ⟨["Bloom(a)"], expr_a_eq_1, env_fail, [("a", "Int32")]⟩
    "blk1" "io error" rfl

/-- C2: when the partial index load, the index construction and the
predicate evaluation all succeed, `should_keep` returns exactly the boolean
`maybe_true` produced for the stored filter expression (and emits no
warning). -/
theorem should_keep_passes_maybe_true {FB IX : Type}
    (p : BloomFilterIndexPruner FB IX) (loc : String) (fb : FB) (ix : IX)
    (v : Bool)
    (hload : p.dal.load_bloom_filter_by_columns p.index_columns
        (p.dal.block_bloom_index_location loc) = .ok fb)
    (hidx : p.dal.from_bloom_block p.data_schema fb = .ok ix)
    (hmt : p.dal.maybe_true ix p.filter_expression = .ok v) :
    p.should_keep loc = (v, none) := by
  unfold BloomFilterIndexPruner.should_keep filter_block_by_bloom_index
  simp only [bind, Except.bind, hload, hidx, hmt]

/-- Witness for C2: with all stages succeeding, `should_keep` returns
`false` when `maybe_true` rules the block out and `true` when it cannot. -/
theorem should_keep_passes_maybe_true_witness :
    BloomFilterIndexPruner.should_keep
        ⟨["Bloom(a)"], expr_a_eq_1, env_ok false, [("a", "Int32")]⟩ "blk1" =
      (false, none) ∧
    BloomFilterIndexPruner.should_keep
        ⟨["Bloom(a)"], expr_a_eq_1, env_ok true, [("a", "Int32")]⟩ "blk1" =
      (true, none) :=
  ⟨should_keep_passes_maybe_true _ "blk1" () () false rfl rfl rfl,
   should_keep_passes_maybe_true _ "blk1" () () true rfl rfl rfl⟩

/-- C6: `NonPruner.should_keep` returns `true` for every block identity, with
no warning; it consults no collaborator and holds no state (its type has no
fields), so the result is independent of any predicate. -/
theorem non_pruner_keeps_all (p : NonPruner) (loc : String) :
    p.should_keep loc = (true, none) :=
  rfl

/-- C8: `should_keep` is deterministic and idempotent — two calls on the
same pruner (hence the same immutable configuration and the same stored
index behaviour) and the same block identity return the same result. -/
theorem should_keep_idempotent {FB IX : Type} (q : BloomFilterPruner FB IX)
    (loc : String) (r1 r2 : Bool × Option String)
    (h1 : q.should_keep loc = r1) (h2 : q.should_keep loc = r2) :
    r1 = r2 :=
  h1.symm.trans h2

/-- Witness for C8: two evaluations of an index-backed pruner on the same
block agree. -/
theorem should_keep_idempotent_witness :
    ((false, none) : Bool × Option String) = (false, none) :=
  should_keep_idempotent
    (.bloomFilterIndex ⟨["Bloom(a)"], expr_a_eq_1, env_ok false, [("a", "Int32")]⟩)
    "blk1" (false, none) (false, none) rfl rfl

/-- C4: extraction on the concrete predicates — `a = 1` yields `{"a"}`,
`1 = a` yields `{"a"}`, `a = 1 AND b > 2` yields `{"a"}` (the `>` sub-test
contributes nothing), and `a > 1` yields the empty set. -/
theorem extraction_concrete_predicates :
    columns_names_of_eq_expressions expr_a_eq_1 = .ok ["a"] ∧
    columns_names_of_eq_expressions expr_1_eq_a = .ok ["a"] ∧
    columns_names_of_eq_expressions expr_conj = .ok ["a"] ∧
    columns_names_of_eq_expressions expr_a_gt_1 = .ok [] := by
  refine ⟨?_, ?_, ?_, ?_⟩
  · rw [columns_names_eq, show extract_columns_spec expr_a_eq_1 = {"a"} from rfl,
      Finset.sort_singleton]
  · rw [columns_names_eq, show extract_columns_spec expr_1_eq_a = {"a"} from rfl,
      Finset.sort_singleton]
  · rw [columns_names_eq, show extract_columns_spec expr_conj = {"a"} from rfl,
      Finset.sort_singleton]
  · rw [columns_names_eq, show extract_columns_spec expr_a_gt_1 = ∅ from rfl,
      Finset.sort_empty]

/-- C5: pre-order traversal behaviour at each node — at a binary "=" whose
operands are a column and a literal (either order, detected by
`eq_point_column`), the column is recorded and traversal stops (does not
descend into the node's children); at every other node nothing is recorded
and traversal continues into the children; consequently the whole traversal
computes exactly the spec-level extraction set. -/
theorem pre_order_extraction (e : Expression) (v : PointQueryVisitor) :
    (∀ c, eq_point_column e = some c →
        pre_visit v e = .ok (.Stop ⟨insert c v.columns⟩)) ∧
    (eq_point_column e = none → pre_visit v e = .ok (.Continue v)) ∧
    accept v e = .ok ⟨v.columns ∪ extract_columns_spec e⟩ := by
  refine ⟨?_, ?_, accept_spec e v⟩
  · intro c hc
    cases e with
    | Column n => simp [eq_point_column] at hc
    | Literal x => simp [eq_point_column] at hc
    | BinaryExpression l op r =>
      by_cases hop : op = "="
      · subst hop
        rcases l with n1 | v1 | ⟨l1, o1, r1⟩ <;> rcases r with n2 | v2 | ⟨l2, o2, r2⟩ <;>
          simp_all [eq_point_column, pre_visit]
      · simp [eq_point_column, hop] at hc
  · intro hc
    cases e with
    | Column n => rfl
    | Literal x => rfl
    | BinaryExpression l op r =>
      by_cases hop : op = "="
      · subst hop
        rcases l with n1 | v1 | ⟨l1, o1, r1⟩ <;> rcases r with n2 | v2 | ⟨l2, o2, r2⟩ <;>
          simp_all [eq_point_column, pre_visit]
      · simp only [pre_visit]
        rw [if_neg hop]

/-- Witness for C5: the matcher stops and records on `a = 1`, and continues
recording nothing on `a > 1`. -/
theorem pre_order_extraction_witness :
    pre_visit ⟨∅⟩ expr_a_eq_1 = .ok (.Stop ⟨{"a"}⟩) ∧
    pre_visit ⟨∅⟩ expr_a_gt_1 = .ok (.Continue ⟨∅⟩) :=
  ⟨(pre_order_extraction expr_a_eq_1 ⟨∅⟩).1 "a" rfl,
   (pre_order_extraction expr_a_gt_1 ⟨∅⟩).2.1 rfl⟩

/-- C9: the candidate column collection never contains duplicates, and a
predicate mentioning the same subtree (hence the same columns) in several
places yields the same candidate set as one mentioning it once: a binary
node over two copies of `e` extracts the same set as `e` itself. -/
theorem extraction_set_semantics (e : Expression) (op : String) :
    ∃ cols dcols : List String,
      columns_names_of_eq_expressions e = .ok cols ∧
      columns_names_of_eq_expressions (.BinaryExpression e op e) = .ok dcols ∧
      cols.Nodup ∧ dcols.toFinset = cols.toFinset := by
  refine ⟨Finset.sort (· ≤ ·) (extract_columns_spec e),
    Finset.sort (· ≤ ·) (extract_columns_spec e), columns_names_eq e, ?_, ?_, rfl⟩
  · rw [columns_names_eq, extract_columns_spec_self_pair]
  · exact Finset.sort_nodup _ _

/-- C10: the factory never returns an error, whatever the shape of the
optional predicate: its only fallible step is extraction, and the extraction
visitor's `pre_visit` returns `Ok` on every node, so the factory's declared
error case is unreachable. -/
theorem factory_never_errors {FB IX : Type} (dal : Env FB IX)
    (schema : DataSchemaRef) (filter_expr : Option Expression) :
    (∀ (v : PointQueryVisitor) (e : Expression), ∃ r, pre_visit v e = .ok r) ∧
    ∃ q, new_bloom_filter_pruner filter_expr schema dal = .ok q := by
  refine ⟨pre_visit_ok, ?_⟩
  cases filter_expr with
  | none => exact ⟨_, rfl⟩
  | some e =>
    rw [new_pruner_some_eq]
    by_cases h : (Finset.sort (· ≤ ·) (extract_columns_spec e)).isEmpty = true
    · rw [if_pos h]
      exact ⟨_, rfl⟩
    · rw [if_neg h]
      exact ⟨_, rfl⟩

/-- C3: the factory returns the `NonPruner` exactly when no filter
expression is supplied or extraction yields an empty candidate set; when
extraction yields a non-empty set it returns a `BloomFilterIndexPruner`. -/
theorem factory_non_pruner_iff {FB IX : Type} (dal : Env FB IX)
    (schema : DataSchemaRef) (filter_expr : Option Expression) :
    (new_bloom_filter_pruner filter_expr schema dal = .ok (.non ⟨⟩) ↔
      filter_expr = none ∨
        ∃ e, filter_expr = some e ∧
          columns_names_of_eq_expressions e = .ok []) ∧
    (∀ e cols, filter_expr = some e →
        columns_names_of_eq_expressions e = .ok cols → cols ≠ [] →
        ∃ q, new_bloom_filter_pruner filter_expr schema dal =
          .ok (.bloomFilterIndex q)) := by
  cases filter_expr with
  | none =>
    refine ⟨⟨fun _ => Or.inl rfl, fun _ => rfl⟩, ?_⟩
    intro e cols he
    exact absurd he (fun h => Option.noConfusion h)
  | some e0 =>
    constructor
    · rw [new_pruner_some_eq]
      by_cases hemp :
          (Finset.sort (· ≤ ·) (extract_columns_spec e0)).isEmpty = true
      · rw [if_pos hemp]
        constructor
        · intro _
          refine Or.inr ⟨e0, rfl, ?_⟩
          rw [columns_names_eq, List.isEmpty_iff.mp hemp]
        · intro _
          rfl
      · rw [if_neg hemp]
        constructor
        · intro h
          exact absurd h (by simp)
        · rintro (h | ⟨e1, he1, hc⟩)
          · exact Option.noConfusion h
          · injection he1 with he1
            subst he1
            rw [columns_names_eq] at hc
            injection hc with hc
            rw [hc] at hemp
            simp at hemp
    · intro e1 cols he1 hc hne
      injection he1 with he1
      subst he1
      rw [new_pruner_some_eq]
      rw [columns_names_eq] at hc
      injection hc with hc
      rw [hc]
      have hfalse : cols.isEmpty ≠ true := by
        simp [List.isEmpty_iff, hne]
      rw [if_neg hfalse]
      exact ⟨_, rfl⟩

/-- Witness for C3: on `a = 1` the factory builds an index-backed pruner. -/
theorem factory_non_pruner_iff_witness :
    ∃ q, new_bloom_filter_pruner (some expr_a_eq_1) [("a", "Int32")]
      (env_ok true) = .ok (.bloomFilterIndex q) :=
  (factory_non_pruner_iff (env_ok true) [("a", "Int32")] (some expr_a_eq_1)).2
    expr_a_eq_1 ["a"] rfl
    (by rw [columns_names_eq,
        show extract_columns_spec expr_a_eq_1 = {"a"} from rfl,
        Finset.sort_singleton])
    (by simp)

/-- C7: whenever extraction yields a non-empty candidate list, the factory
builds a `BloomFilterIndexPruner` whose index-column list is the
`to_bloom_column_name` translation of the candidates — as a set, exactly the
image of the candidate set, nothing else — bound to the supplied expression,
accessor and schema. -/
theorem factory_binds_translated_columns {FB IX : Type} (dal : Env FB IX)
    (schema : DataSchemaRef) (e : Expression) (cols : List String)
    (hcols : columns_names_of_eq_expressions e = .ok cols) (hne : cols ≠ []) :
    new_bloom_filter_pruner (some e) schema dal =
      .ok (.bloomFilterIndex
        ⟨cols.map to_bloom_column_name, e, dal, schema⟩) ∧
    (cols.map to_bloom_column_name).toFinset =
      cols.toFinset.image to_bloom_column_name := by
  refine ⟨?_, list_toFinset_map cols to_bloom_column_name⟩
  rw [new_pruner_some_eq]
  rw [columns_names_eq] at hcols
  injection hcols with hcols
  rw [hcols]
  have hfalse : cols.isEmpty ≠ true := by
    simp [List.isEmpty_iff, hne]
  rw [if_neg hfalse]

/-- Witness for C7: on `a = 1` the pruner is bound to the translated column
list `["Bloom(a)"]`, the expression and the schema. -/
theorem factory_binds_translated_columns_witness :
    new_bloom_filter_pruner (some expr_a_eq_1) [("a", "Int32")] (env_ok true) =
      .ok (.bloomFilterIndex
        ⟨["Bloom(a)"], expr_a_eq_1, env_ok true, [("a", "Int32")]⟩) ∧
    (["Bloom(a)"] : List String).toFinset =
      (["a"] : List String).toFinset.image to_bloom_column_name :=
  factory_binds_translated_columns (env_ok true) [("a", "Int32")] expr_a_eq_1
    ["a"]
    (by rw [columns_names_eq,
        show extract_columns_spec expr_a_eq_1 = {"a"} from rfl,
        Finset.sort_singleton])
    (by simp)
